import Mathlib

/-!
Verification of the PeriPy ramp-controller and utility functions.

This file gives a shallow embedding, over exact rationals, of
`peridynamics/utilities.py` (`_calc_midpoint_gradient`, `calc_build_time`,
`calc_displacement_scale`, `read_array`) and of the user callbacks of
`examples/example1/example.py` (`is_crack`, `boundary_function`), together
with theorems settling the specification claims about them.

Conventions: Python ints become `ℕ` (step counters are non-negative in every
reachable call) with arithmetic carried out in `ℚ` wherever the Python code
mixes ints with float division; Python floats become exact rationals `ℚ`;
a Python function that can raise becomes a function into an explicit result
type with a constructor for the raised exception.
-/

/-- Result of `calc_build_time`: either a pair `(build_time, coefficients)`
or the `ValueError` raised when the build-up time exceeds the step budget. -/
inductive BuildResult where
  | ok : ℕ → ℚ × ℚ × ℚ → BuildResult
  | error : BuildResult
deriving DecidableEq, Repr

/-- Determinant of the 3x3 matrix `A = [[T^5, T^4, T^3], [20T^3, 12T^2, 6T],
[5T^4, 4T^3, 3T^2]]` built by `_calc_midpoint_gradient`, by cofactor
expansion along the first row. -/
def mg_matrix_det (t : ℚ) : ℚ :=
  1 * t ^ 5 * (12 * t ^ 2 * (3 * t ^ 2) - 6 * t * (4 * t ^ 3))
    - 1 * t ^ 4 * (20 * t ^ 3 * (3 * t ^ 2) - 6 * t * (5 * t ^ 4))
    + 1 * t ^ 3 * (20 * t ^ 3 * (4 * t ^ 3) - 12 * t ^ 2 * (5 * t ^ 4))

/-- Embedding of `_calc_midpoint_gradient(T, displacement)`.  The source
builds the 3x3 matrix `A = [[T^5, T^4, T^3], [20T^3, 12T^2, 6T],
[5T^4, 4T^3, 3T^2]]`, the right-hand side `b = (displacement, 0, 0)`, and
calls `np.linalg.solve(A, b)`.  The library solve is modelled exactly: it
returns the unique solution (written via Cramer's rule) when `det A ≠ 0`
and raises `LinAlgError` (modelled as `none`) when `A` is singular.
The midpoint gradient `5a(T/2)^4 + 4b(T/2)^3 + 3c(T/2)^2` and the
coefficient triple are returned as in the source. -/
def calc_midpoint_gradient (T : ℕ) (displacement : ℚ) :
    Option (ℚ × (ℚ × ℚ × ℚ)) :=
  let t : ℚ := (T : ℚ)
  let det := mg_matrix_det t
  if det = 0 then none
  else
    let a := displacement * (12 * t ^ 2 * (3 * t ^ 2) - 6 * t * (4 * t ^ 3)) / det
    let b := -(displacement * (20 * t ^ 3 * (3 * t ^ 2) - 6 * t * (5 * t ^ 4))) / det
    let c := displacement * (20 * t ^ 3 * (4 * t ^ 3) - 12 * t ^ 2 * (5 * t ^ 4)) / det
    let midpoint_gradient :=
      5 * a * (t / 2) ^ 4 + 4 * b * (t / 2) ^ 3 + 3 * c * (t / 2) ^ 2
    some (midpoint_gradient, (a, b, c))

/-- The `while midpoint_gradient > max_displacement_rate` condition of
`calc_build_time`.  `none` models the initial `np.inf`, for which the
condition is always true. -/
def loop_cond (max_displacement_rate : ℚ) :
    Option (ℚ × (ℚ × ℚ × ℚ)) → Bool
  | none => true
  | some gc => if max_displacement_rate < gc.1 then true else false

/-- The `while` loop of `calc_build_time`, with an explicit fuel parameter
(the loop body runs at most `steps + 2` times because `build_time` is
incremented every iteration and the `ValueError` fires as soon as
`build_time > steps`).  `cur` carries the most recent successfully computed
`(midpoint_gradient, coefficients)`; a `LinAlgError` from the solver is
swallowed (`pass` in the source), leaving `cur` unchanged. -/
def build_loop (build_displacement max_displacement_rate : ℚ) (steps : ℕ) :
    ℕ → ℕ → Option (ℚ × (ℚ × ℚ × ℚ)) → BuildResult
  | 0, _, _ => BuildResult.error
  | fuel + 1, build_time, cur =>
    if loop_cond max_displacement_rate cur then
      let cur' :=
        match calc_midpoint_gradient build_time build_displacement with
        | some gc => some gc
        | none => cur
      if steps < build_time + 1 then BuildResult.error
      else build_loop build_displacement max_displacement_rate steps
        fuel (build_time + 1) cur'
    else
      match cur with
      | some gc => BuildResult.ok build_time gc.2
      | none => BuildResult.error

/-- Embedding of `calc_build_time(build_displacement, max_displacement_rate,
steps)`: run the scan loop starting from `build_time = 0` with
`midpoint_gradient = np.inf` (modelled by `cur = none`). -/
def calc_build_time (build_displacement max_displacement_rate : ℚ)
    (steps : ℕ) : BuildResult :=
  build_loop build_displacement max_displacement_rate steps (steps + 2) 0 none

/-- Embedding of `calc_displacement_scale(coefficients, max_displacement,
build_time, max_displacement_rate, step, build_displacement, ease_off)`.
Returns the pair `(displacement_bc_rate, ease_off)` exactly as the source
does; `step` and `ease_off` are the Python ints (non-negative in every call
the driver makes), and mixed int/float arithmetic such as
`step - ease_off + build_time / 2` is carried out in `ℚ`. -/
def calc_displacement_scale (coefficients : ℚ × ℚ × ℚ)
    (max_displacement : ℚ) (build_time : ℕ) (max_displacement_rate : ℚ)
    (step : ℕ) (build_displacement : ℚ) (ease_off : ℕ) : ℚ × ℕ :=
  let a := coefficients.1
  let b := coefficients.2.1
  let c := coefficients.2.2
  if (step : ℚ) < (build_time : ℚ) / 2 then
    (5 * a * (step : ℚ) ^ 4 + 4 * b * (step : ℚ) ^ 3 + 3 * c * (step : ℚ) ^ 2,
      ease_off)
  else if ease_off ≠ 0 then
    let t : ℚ := (step : ℚ) - (ease_off : ℚ) + (build_time : ℚ) / 2
    if (build_time : ℚ) < t then (0, ease_off)
    else (5 * a * t ^ 4 + 4 * b * t ^ 3 + 3 * c * t ^ 2, ease_off)
  else
    let linear_time : ℚ := (step : ℚ) - (build_time : ℚ) / 2
    let linear_displacement := linear_time * max_displacement_rate
    let displacement := linear_displacement + build_displacement / 2
    if displacement + build_displacement / 2 < max_displacement then
      (1 * max_displacement_rate, ease_off)
    else
      (1 * max_displacement_rate, step)

/-- The states reachable by the driver protocol: call
`calc_displacement_scale` at steps `0, 1, 2, ...`, threading the returned
`ease_off` into the next call, starting from `ease_off = 0`.
`Reach c M T R D n e` says the call at step `n` is made with `ease_off = e`. -/
inductive Reach (c : ℚ × ℚ × ℚ) (M : ℚ) (T : ℕ) (R : ℚ) (D : ℚ) :
    ℕ → ℕ → Prop where
  | zero : Reach c M T R D 0 0
  | succ : ∀ n e, Reach c M T R D n e →
      Reach c M T R D (n + 1) (calc_displacement_scale c M T R n D e).2

/-- Modelled from the spec: the three-phase rate law of the Ramp Controller.
Acceleration phase (`step < T/2`): the quintic's derivative at `step`.
Deceleration phase (`ease_off ≠ 0`): the derivative at
`step - ease_off + T/2`, clamped to `0` once that argument exceeds `T`.
Constant-rate phase (otherwise): `Rmax`, also on the very step at which
`ease_off` is recorded. -/
def rate_spec (coefficients : ℚ × ℚ × ℚ) (build_time : ℕ)
    (max_displacement_rate : ℚ) (step : ℕ) (ease_off : ℕ) : ℚ :=
  let a := coefficients.1
  let b := coefficients.2.1
  let c := coefficients.2.2
  if (step : ℚ) < (build_time : ℚ) / 2 then
    5 * a * (step : ℚ) ^ 4 + 4 * b * (step : ℚ) ^ 3 + 3 * c * (step : ℚ) ^ 2
  else if ease_off ≠ 0 then
    let t : ℚ := (step : ℚ) - (ease_off : ℚ) + (build_time : ℚ) / 2
    if (build_time : ℚ) < t then 0
    else 5 * a * t ^ 4 + 4 * b * t ^ 3 + 3 * c * t ^ 2
  else
    max_displacement_rate

/-- Python exceptions that can propagate out of `read_array`. -/
inductive PyErr where
  | ioError : PyErr
  | keyError : PyErr
  | nameError : PyErr
deriving DecidableEq, Repr

/-- Result of `read_array`: a returned value or a raised exception. -/
inductive ReadResult where
  | ok : Option (List ℚ) → ReadResult
  | raised : PyErr → ReadResult
deriving DecidableEq, Repr

/-- Embedding of `read_array(read_path, dataset)`.  The HDF5 store is
modelled as a partial map from paths to files, a file being a partial map
from dataset names to arrays.  Opening a missing file raises `IOError`,
which the outer handler catches (printing a message) and returns `None`.
Looking up a missing dataset makes h5py raise; the flag
`missing_key_as_ioerror` covers both possible behaviours of that external
call: if the lookup raises `KeyError` (h5py's documented behaviour), the
inner `except IOError` does not match and the `KeyError` propagates; if it
raised `IOError`, the inner handler would catch it, but then
`return array` reads the never-assigned local `array` and raises
`NameError`.  Either way the call raises instead of returning. -/
def read_array (missing_key_as_ioerror : Bool)
    (fs : String → Option (String → Option (List ℚ)))
    (read_path dataset : String) : ReadResult :=
  match fs read_path with
  | none => ReadResult.ok none
  | some hf =>
    match hf dataset with
    | some arr => ReadResult.ok (some arr)
    | none =>
      if missing_key_as_ioerror then ReadResult.raised PyErr.nameError
      else ReadResult.raised PyErr.keyError

/-- The exact midpoint gradient of the quintic solved at build time `T`:
for `T ≥ 1` the linear system has the unique solution
`a = 6D/T^5, b = -15D/T^4, c = 10D/T^3`, whose midpoint gradient is
`15 D / (8 T)`. -/
def mg_at (T : ℕ) (D : ℚ) : ℚ := 15 * D / (8 * (T : ℚ))

/-- The exact coefficient triple of the quintic solved at build time `T`. -/
def coeffs_at (T : ℕ) (D : ℚ) : ℚ × ℚ × ℚ :=
  (6 * D / (T : ℚ) ^ 5, -(15 * D) / (T : ℚ) ^ 4, 10 * D / (T : ℚ) ^ 3)

/-- The minimal feasible build time: the least positive integer `T` whose
midpoint gradient `15 D / (8 T)` is at most `Rmax` (for `D, Rmax > 0` this
is `⌈15 D / (8 Rmax)⌉`).  `calc_build_time`'s scan stops right after
computing the solution at this `T`. -/
def min_build_time (D Rmax : ℚ) : ℕ :=
  (⌈15 * D / (8 * Rmax)⌉).toNat

/-- The quintic derivative `x'(t) = 5 a t^4 + 4 b t^3 + 3 c t^2` for the
coefficients solved at build time `s`, in closed form. -/
def quintic_rate (D s t : ℚ) : ℚ := 30 * D * t ^ 2 * (t - s) ^ 2 / s ^ 5

/-- The particle put first by `is_crack`'s normalisation (`p1`): the swap
`if x[0] > y[0]: p2 = x; p1 = y` keeps the particle with the smaller first
coordinate first. -/
def crack_p1 (x y : ℚ × ℚ) : ℚ × ℚ :=
  if y.1 < x.1 then y else x

/-- The particle put second by `is_crack`'s normalisation (`p2`). -/
def crack_p2 (x y : ℚ × ℚ) : ℚ × ℚ :=
  if y.1 < x.1 then x else y

/-- Embedding of the example's `is_crack(x, y)`: after normalising so that
`p1` has the smaller first coordinate, the pair defines the crack when the
two particles straddle the `0.5 + 1e-6` line and the straight line between
them crosses `x = 0.5` at a height inside the central crack band. -/
def is_crack (x y : ℚ × ℚ) : ℕ :=
  let crack_length : ℚ := 3 / 10
  let p1 := crack_p1 x y
  let p2 := crack_p2 x y
  if p1.1 < 1 / 2 + 1 / 1000000 ∧ 1 / 2 + 1 / 1000000 < p2.1 then
    let m := (p2.2 - p1.2) / (p2.1 - p1.1)
    let c := p1.2 - m * p1.1
    let height := m * (1 / 2) + c
    if 1 / 2 * (1 - crack_length) < height ∧
        height < 1 / 2 * (1 + crack_length) then 1
    else 0
  else 0

/-- Embedding of the example's `boundary_function(model, u, step)`.  The
displacement array `u` is a function from particle index to a row of three
components; `lhs` and `rhs` are the index sets `model.lhs` and `model.rhs`.
The four numpy fancy assignments are applied in source order:
`u[lhs, 1:3] = 0`, `u[rhs, 1:3] = 0`, `u[lhs, 0] = -extension`,
`u[rhs, 0] = extension`, with `extension = 0.5 * step * load_rate` and
`load_rate = 0.000005`. -/
def boundary_function (lhs rhs : List ℕ) (u : ℕ → Fin 3 → ℚ) (step : ℕ) :
    ℕ → Fin 3 → ℚ :=
  let load_rate : ℚ := 5 / 1000000
  let u1 : ℕ → Fin 3 → ℚ :=
    fun i j => if i ∈ lhs ∧ (j = 1 ∨ j = 2) then 0 else u i j
  let u2 : ℕ → Fin 3 → ℚ :=
    fun i j => if i ∈ rhs ∧ (j = 1 ∨ j = 2) then 0 else u1 i j
  let extension : ℚ := 1 / 2 * (step : ℚ) * load_rate
  let u3 : ℕ → Fin 3 → ℚ :=
    fun i j => if i ∈ lhs ∧ j = 0 then -extension else u2 i j
  let u4 : ℕ → Fin 3 → ℚ :=
    fun i j => if i ∈ rhs ∧ j = 0 then extension else u3 i j
  u4

/-! ## Closed forms for the linear solve -/

lemma mg_matrix_det_eq (t : ℚ) : mg_matrix_det t = 2 * t ^ 9 := by
  unfold mg_matrix_det; ring

lemma calc_midpoint_gradient_zero (D : ℚ) :
    calc_midpoint_gradient 0 D = none := by
  simp [calc_midpoint_gradient, mg_matrix_det]

lemma calc_midpoint_gradient_pos (T : ℕ) (hT : T ≠ 0) (D : ℚ) :
    calc_midpoint_gradient T D = some (mg_at T D, coeffs_at T D) := by
  have ht : ((T : ℚ)) ≠ 0 := Nat.cast_ne_zero.mpr hT
  have h9 : ((T : ℚ)) ^ 9 ≠ 0 := pow_ne_zero _ ht
  simp only [calc_midpoint_gradient, mg_matrix_det_eq, mg_at, coeffs_at]
  rw [if_neg (fun h => h9 (by linarith))]
  simp only [Option.some.injEq, Prod.mk.injEq]
  refine ⟨?_, ?_, ?_, ?_⟩ <;> field_simp <;> ring

/-! ## Facts about the minimal feasible build time -/

lemma min_build_time_pos (D Rmax : ℚ) (hD : 0 < D) (hR : 0 < Rmax) :
    1 ≤ min_build_time D Rmax := by
  unfold min_build_time
  have hx : (0 : ℚ) < 15 * D / (8 * Rmax) := by positivity
  have h := Int.ceil_pos.mpr hx
  omega

lemma mg_at_min_le (D Rmax : ℚ) (hD : 0 < D) (hR : 0 < Rmax) :
    mg_at (min_build_time D Rmax) D ≤ Rmax := by
  have hx : (0 : ℚ) < 15 * D / (8 * Rmax) := by positivity
  have hceil : (0 : ℤ) ≤ ⌈15 * D / (8 * Rmax)⌉ := (Int.ceil_pos.mpr hx).le
  have h1 : 15 * D / (8 * Rmax) ≤ ((min_build_time D Rmax : ℕ) : ℚ) := by
    have h0 : ((min_build_time D Rmax : ℕ) : ℤ) = ⌈15 * D / (8 * Rmax)⌉ :=
      Int.toNat_of_nonneg hceil
    have h2 := Int.le_ceil (15 * D / (8 * Rmax))
    rw [← h0] at h2
    exact_mod_cast h2
  have hk : (0 : ℚ) < ((min_build_time D Rmax : ℕ) : ℚ) := lt_of_lt_of_le hx h1
  unfold mg_at
  rw [div_le_iff₀ (by positivity)]
  have h2 : 15 * D ≤ ((min_build_time D Rmax : ℕ) : ℚ) * (8 * Rmax) := by
    have h3 : 15 * D / (8 * Rmax) * (8 * Rmax) ≤
        ((min_build_time D Rmax : ℕ) : ℚ) * (8 * Rmax) := by
      apply mul_le_mul_of_nonneg_right h1 (by positivity)
    rw [div_mul_cancel₀] at h3
    · exact h3
    · positivity
  nlinarith

lemma mg_at_lt_min (D Rmax : ℚ) (hD : 0 < D) (hR : 0 < Rmax) (k : ℕ)
    (hk : 1 ≤ k) (hlt : k < min_build_time D Rmax) : Rmax < mg_at k D := by
  have h1 : ((k : ℤ)) < ⌈15 * D / (8 * Rmax)⌉ := by
    unfold min_build_time at hlt; omega
  have h2 : ((k : ℚ)) < 15 * D / (8 * Rmax) := by
    exact_mod_cast Int.lt_ceil.mp h1
  have hkq : (0 : ℚ) < (k : ℚ) := by exact_mod_cast hk
  unfold mg_at
  rw [lt_div_iff₀ (by positivity)]
  have h3 : ((k : ℚ)) * (8 * Rmax) < 15 * D := by
    have := (lt_div_iff₀ (by positivity : (0 : ℚ) < 8 * Rmax)).mp h2
    linarith
  nlinarith

/-! ## Exact characterisation of the calc_build_time scan -/

lemma build_loop_spec (D Rmax : ℚ) (hD : 0 < D) (hR : 0 < Rmax) (steps : ℕ) :
    ∀ fuel bt cur, bt ≤ min_build_time D Rmax + 1 → bt ≤ steps →
      steps + 2 ≤ fuel + bt →
      cur = (if bt ≤ 1 then none
        else some (mg_at (bt - 1) D, coeffs_at (bt - 1) D)) →
      build_loop D Rmax steps fuel bt cur =
        (if min_build_time D Rmax + 1 ≤ steps then
            BuildResult.ok (min_build_time D Rmax + 1)
              (coeffs_at (min_build_time D Rmax) D)
          else BuildResult.error) := by
  intro fuel
  induction fuel with
  | zero => intro bt cur h1 h2 h3 h4; omega
  | succ fuel ih =>
    intro bt cur h1 h2 h3 h4
    have hm1 : 1 ≤ min_build_time D Rmax := min_build_time_pos D Rmax hD hR
    by_cases hbt : bt = min_build_time D Rmax + 1
    · -- the gradient computed in the previous iteration is feasible: exit
      rw [h4, if_neg (by omega)]
      simp only [build_loop]
      have hcf : loop_cond Rmax
          (some (mg_at (bt - 1) D, coeffs_at (bt - 1) D)) = false := by
        simp only [loop_cond]
        rw [if_neg]
        rw [hbt]; simp only [Nat.add_sub_cancel]
        exact not_lt.mpr (mg_at_min_le D Rmax hD hR)
      rw [if_neg (by rw [hcf]; simp)]
      rw [hbt]
      simp only [Nat.add_sub_cancel]
      rw [if_pos (by omega)]
    · -- the scan continues
      have hbtm : bt ≤ min_build_time D Rmax := by omega
      simp only [build_loop]
      have hcond : loop_cond Rmax cur = true := by
        rcases le_or_lt bt 1 with h | h
        · rw [h4, if_pos h]; rfl
        · rw [h4, if_neg (by omega)]
          simp only [loop_cond]
          rw [if_pos]
          exact mg_at_lt_min D Rmax hD hR (bt - 1) (by omega) (by omega)
      rw [if_pos hcond]
      have hcur' : (match calc_midpoint_gradient bt D with
          | some gc => some gc
          | none => cur) =
          (if bt + 1 ≤ 1 then none
            else some (mg_at (bt + 1 - 1) D, coeffs_at (bt + 1 - 1) D)) := by
        rcases Nat.eq_zero_or_pos bt with h0 | h0
        · subst h0
          rw [calc_midpoint_gradient_zero, h4]
          simp
        · rw [calc_midpoint_gradient_pos bt (by omega) D]
          rw [if_neg (by omega)]
          simp
      by_cases hstep : steps < bt + 1
      · rw [if_pos hstep, if_neg (by omega)]
      · rw [if_neg hstep]
        rw [hcur']
        exact ih (bt + 1) _ (by omega) (by omega) (by omega) rfl

lemma calc_build_time_spec (D Rmax : ℚ) (hD : 0 < D) (hR : 0 < Rmax)
    (steps : ℕ) :
    calc_build_time D Rmax steps =
      (if min_build_time D Rmax + 1 ≤ steps then
          BuildResult.ok (min_build_time D Rmax + 1)
            (coeffs_at (min_build_time D Rmax) D)
        else BuildResult.error) := by
  unfold calc_build_time
  exact build_loop_spec D Rmax hD hR steps (steps + 2) 0 none
    (by omega) (by omega) (by omega) (by simp)

/-! ## The quintic derivative in closed form, and its bounds -/

lemma coeffs_rate_eq (D : ℚ) (s : ℕ) (hs : s ≠ 0) (t' : ℚ) :
    5 * (coeffs_at s D).1 * t' ^ 4 + 4 * (coeffs_at s D).2.1 * t' ^ 3
      + 3 * (coeffs_at s D).2.2 * t' ^ 2 = quintic_rate D (s : ℚ) t' := by
  have h : ((s : ℚ)) ≠ 0 := Nat.cast_ne_zero.mpr hs
  unfold coeffs_at quintic_rate
  field_simp
  ring

lemma quintic_rate_nonneg (D s t : ℚ) (hs : 0 < s) (hD : 0 ≤ D) :
    0 ≤ quintic_rate D s t := by
  unfold quintic_rate
  positivity

lemma quintic_rate_le_mid (D s t : ℚ) (hs : 0 < s) (hD : 0 ≤ D)
    (h0 : 0 ≤ t) (h1 : t ≤ s) : quintic_rate D s t ≤ 15 * D / (8 * s) := by
  unfold quintic_rate
  rw [div_le_div_iff (by positivity) (by positivity)]
  have hx : 0 ≤ t * (s - t) := mul_nonneg h0 (sub_nonneg.mpr h1)
  have hk : 0 ≤ s ^ 2 + 4 * (t * (s - t)) := by nlinarith [sq_nonneg s]
  have key : 0 ≤ (s - 2 * t) ^ 2 * (s ^ 2 + 4 * (t * (s - t))) :=
    mul_nonneg (sq_nonneg _) hk
  have hDs : 0 ≤ D * s := mul_nonneg hD hs.le
  nlinarith [mul_nonneg hDs key]

lemma quintic_rate_tail_le (D s t : ℚ) (hs : 0 < s) (hD : 0 ≤ D)
    (h1 : s ≤ t) (h2 : t ≤ s + 1) :
    quintic_rate D s t ≤ 30 * D * (s + 1) ^ 2 / s ^ 5 := by
  unfold quintic_rate
  rw [div_le_div_iff (by positivity) (by positivity)]
  have ht0 : 0 ≤ t := le_trans hs.le h1
  have ha : t ^ 2 ≤ (s + 1) ^ 2 := by nlinarith
  have hb : (t - s) ^ 2 ≤ 1 := by nlinarith
  have hc : t ^ 2 * (t - s) ^ 2 ≤ (s + 1) ^ 2 * 1 :=
    mul_le_mul ha hb (sq_nonneg _) (by positivity)
  have h30 : 0 ≤ 30 * D * s ^ 5 := by
    have := pow_pos hs 5
    nlinarith
  nlinarith [mul_le_mul_of_nonneg_left hc h30]

lemma quintic_tail_le_mid (D s : ℚ) (hs : 5 ≤ s) (hD : 0 ≤ D) :
    30 * D * (s + 1) ^ 2 / s ^ 5 ≤ 15 * D / (8 * s) := by
  have hs0 : (0 : ℚ) < s := by linarith
  rw [div_le_div_iff (by positivity) (by positivity)]
  have hu : (0 : ℚ) ≤ s - 5 := sub_nonneg.mpr hs
  have h16 : 16 * (s + 1) ^ 2 ≤ s ^ 4 := by
    nlinarith [mul_nonneg hu hu, mul_nonneg (mul_nonneg hu hu) hu,
      mul_nonneg (mul_nonneg (mul_nonneg hu hu) hu) hu]
  nlinarith [mul_nonneg (mul_nonneg hD hs0.le) (sub_nonneg.mpr h16)]

/-! ## Branch lemmas for calc_displacement_scale -/

lemma cds_accel (c : ℚ × ℚ × ℚ) (M : ℚ) (T : ℕ) (R : ℚ) (st : ℕ) (D : ℚ)
    (e : ℕ) (h : (st : ℚ) < (T : ℚ) / 2) :
    calc_displacement_scale c M T R st D e =
      (5 * c.1 * (st : ℚ) ^ 4 + 4 * c.2.1 * (st : ℚ) ^ 3
        + 3 * c.2.2 * (st : ℚ) ^ 2, e) := by
  simp only [calc_displacement_scale]
  rw [if_pos h]

lemma cds_decel_clamp (c : ℚ × ℚ × ℚ) (M : ℚ) (T : ℕ) (R : ℚ) (st : ℕ)
    (D : ℚ) (e : ℕ) (h1 : ¬((st : ℚ) < (T : ℚ) / 2)) (h2 : e ≠ 0)
    (h3 : (T : ℚ) < (st : ℚ) - (e : ℚ) + (T : ℚ) / 2) :
    calc_displacement_scale c M T R st D e = (0, e) := by
  simp only [calc_displacement_scale]
  rw [if_neg h1, if_pos h2, if_pos h3]

lemma cds_decel_run (c : ℚ × ℚ × ℚ) (M : ℚ) (T : ℕ) (R : ℚ) (st : ℕ)
    (D : ℚ) (e : ℕ) (h1 : ¬((st : ℚ) < (T : ℚ) / 2)) (h2 : e ≠ 0)
    (h3 : ¬((T : ℚ) < (st : ℚ) - (e : ℚ) + (T : ℚ) / 2)) :
    calc_displacement_scale c M T R st D e =
      (5 * c.1 * ((st : ℚ) - (e : ℚ) + (T : ℚ) / 2) ^ 4
        + 4 * c.2.1 * ((st : ℚ) - (e : ℚ) + (T : ℚ) / 2) ^ 3
        + 3 * c.2.2 * ((st : ℚ) - (e : ℚ) + (T : ℚ) / 2) ^ 2, e) := by
  simp only [calc_displacement_scale]
  rw [if_neg h1, if_pos h2, if_neg h3]

lemma cds_const_keep (c : ℚ × ℚ × ℚ) (M : ℚ) (T : ℕ) (R : ℚ) (st : ℕ)
    (D : ℚ) (h1 : ¬((st : ℚ) < (T : ℚ) / 2))
    (h4 : ((st : ℚ) - (T : ℚ) / 2) * R + D / 2 + D / 2 < M) :
    calc_displacement_scale c M T R st D 0 = (1 * R, 0) := by
  simp only [calc_displacement_scale]
  rw [if_neg h1, if_neg (by simp), if_pos h4]

lemma cds_const_ease (c : ℚ × ℚ × ℚ) (M : ℚ) (T : ℕ) (R : ℚ) (st : ℕ)
    (D : ℚ) (h1 : ¬((st : ℚ) < (T : ℚ) / 2))
    (h4 : ¬(((st : ℚ) - (T : ℚ) / 2) * R + D / 2 + D / 2 < M)) :
    calc_displacement_scale c M T R st D 0 = (1 * R, st) := by
  simp only [calc_displacement_scale]
  rw [if_neg h1, if_neg (by simp), if_neg h4]

/-- The returned `ease_off` is either the input `ease_off` or, only in the
constant-velocity branch (input `ease_off = 0`, step past `build_time/2`),
the current step. -/
lemma cds_snd (c : ℚ × ℚ × ℚ) (M : ℚ) (T : ℕ) (R : ℚ) (st : ℕ) (D : ℚ)
    (e : ℕ) :
    (calc_displacement_scale c M T R st D e).2 = e ∨
      ((calc_displacement_scale c M T R st D e).2 = st ∧ e = 0 ∧
        ¬((st : ℚ) < (T : ℚ) / 2)) := by
  simp only [calc_displacement_scale]
  split_ifs with h1 h2 h3 h4
  · left; rfl
  · left; rfl
  · left; rfl
  · left; rfl
  · right
    refine ⟨rfl, ?_, h1⟩
    by_contra he
    exact absurd he h2

lemma cds_snd_ne (c : ℚ × ℚ × ℚ) (M : ℚ) (T : ℕ) (R : ℚ) (st : ℕ) (D : ℚ)
    (e : ℕ) (he : e ≠ 0) :
    (calc_displacement_scale c M T R st D e).2 = e := by
  rcases cds_snd c M T R st D e with h | ⟨_, h0, _⟩
  · exact h
  · exact absurd h0 he

/-! ## Reachable ease_off states -/

lemma reach_ease (c : ℚ × ℚ × ℚ) (M : ℚ) (T : ℕ) (R : ℚ) (D : ℚ)
    (n e : ℕ) (h : Reach c M T R D n e) :
    e = 0 ∨ (0 < e ∧ e < n ∧ ¬((e : ℚ) < (T : ℚ) / 2)) := by
  induction h with
  | zero => left; rfl
  | succ n e0 h0 ih =>
    rcases cds_snd c M T R n D e0 with h | ⟨h, he0, hng⟩
    · rw [h]
      rcases ih with h' | ⟨h1, h2, h3⟩
      · left; exact h'
      · right; exact ⟨h1, by omega, h3⟩
    · rw [h]
      rcases Nat.eq_zero_or_pos n with h0n | h0n
      · left; omega
      · right; exact ⟨h0n, by omega, hng⟩

lemma reach_det (c : ℚ × ℚ × ℚ) (M : ℚ) (T : ℕ) (R : ℚ) (D : ℚ) :
    ∀ n e e', Reach c M T R D n e → Reach c M T R D n e' → e = e' := by
  intro n
  induction n with
  | zero =>
    intro e e' h1 h2
    cases h1
    cases h2
    rfl
  | succ n ih =>
    intro e e' h1 h2
    cases h1 with
    | succ _ e1 r1 =>
      cases h2 with
      | succ _ e2 r2 =>
        rw [ih e1 e2 r1 r2]

lemma reach_mono (c : ℚ × ℚ × ℚ) (M : ℚ) (T : ℕ) (R : ℚ) (D : ℚ) :
    ∀ n' e', Reach c M T R D n' e' → ∀ n e, Reach c M T R D n e →
      n ≤ n' → e ≠ 0 → e' = e := by
  intro n' e' h'
  induction h' with
  | zero =>
    intro n e h hle hne
    interval_cases n
    cases h
    exact absurd rfl hne
  | succ m e1 r1 ih =>
    intro n e h hle hne
    rcases Nat.lt_or_ge n (m + 1) with hlt | hge
    · have h2 : e1 = e := ih n e h (by omega) hne
      rw [h2]
      exact cds_snd_ne c M T R m D e hne
    · have hn : n = m + 1 := by omega
      subst hn
      exact reach_det c M T R D (m + 1) _ e (Reach.succ m e1 r1) h

/-! ## Concrete evaluations used by counterexamples and witnesses -/

lemma min_build_time_1_2 : min_build_time 1 2 = 1 := by
  unfold min_build_time
  have h : ⌈15 * (1 : ℚ) / (8 * 2)⌉ = 1 := by
    rw [Int.ceil_eq_iff] <;> norm_num
  rw [h]
  rfl

lemma min_build_time_83_1 : min_build_time (8 / 3) 1 = 5 := by
  unfold min_build_time
  have h : ⌈15 * (8 / 3 : ℚ) / (8 * 1)⌉ = 5 := by
    rw [Int.ceil_eq_iff] <;> norm_num
  rw [h]
  rfl

lemma cbt_eval_1_2_100 : calc_build_time 1 2 100 = BuildResult.ok 2 (6, -15, 10) := by
  rw [calc_build_time_spec 1 2 (by norm_num) (by norm_num) 100, min_build_time_1_2]
  rw [if_pos (by norm_num)]
  unfold coeffs_at
  norm_num

lemma cbt_eval_1_2_1 : calc_build_time 1 2 1 = BuildResult.error := by
  rw [calc_build_time_spec 1 2 (by norm_num) (by norm_num) 1, min_build_time_1_2]
  rw [if_neg (by norm_num)]

lemma cbt_eval_83_1_100 :
    calc_build_time (8 / 3) 1 100 =
      BuildResult.ok 6 (16 / 3125, -8 / 125, 16 / 75) := by
  rw [calc_build_time_spec (8 / 3) 1 (by norm_num) (by norm_num) 100,
    min_build_time_83_1]
  rw [if_pos (by norm_num)]
  unfold coeffs_at
  norm_num

/-! ## Claim C4: the three-phase law -/

/-- C4: `calc_displacement_scale` implements the three-phase law exactly as
stated: for `step < build_time/2` it returns the quintic derivative at
`step`; otherwise, when `ease_off ≠ 0`, the derivative at
`step - ease_off + build_time/2`, exactly `0` once that argument exceeds
`build_time`; otherwise exactly `max_displacement_rate` (also on the step
where `ease_off` is recorded).  The returned rate coincides with the
spec-modelled `rate_spec` on every input. -/
theorem c4_three_phase_law (c : ℚ × ℚ × ℚ) (M : ℚ) (T : ℕ) (R : ℚ)
    (st : ℕ) (D : ℚ) (e : ℕ) :
    (calc_displacement_scale c M T R st D e).1 = rate_spec c T R st e := by
  simp only [calc_displacement_scale, rate_spec]
  split_ifs <;> ring

/-! ## Claim C5: ease_off recording condition -/

/-- C5: in the constant-rate phase (`step ≥ build_time/2`, `ease_off = 0`)
the call returns `ease_off = step` exactly when the accumulated
displacement — the whole build-phase displacement plus the linear part
`max_displacement_rate * (step - build_time/2)` — reaches the target
`max_displacement`, and returns `ease_off = 0` unchanged otherwise; the
rate is `max_displacement_rate` in both cases. -/
theorem c5_ease_off_condition (c : ℚ × ℚ × ℚ) (M : ℚ) (T : ℕ) (R : ℚ)
    (st : ℕ) (D : ℚ) (h1 : ¬((st : ℚ) < (T : ℚ) / 2)) :
    (calc_displacement_scale c M T R st D 0).2 =
      (if D + R * ((st : ℚ) - (T : ℚ) / 2) < M then 0 else st) ∧
    (calc_displacement_scale c M T R st D 0).1 = R := by
  by_cases h4 : ((st : ℚ) - (T : ℚ) / 2) * R + D / 2 + D / 2 < M
  · rw [cds_const_keep c M T R st D h1 h4]
    constructor
    · rw [if_pos (by nlinarith [h4])]
    · norm_num
  · rw [cds_const_ease c M T R st D h1 h4]
    constructor
    · rw [if_neg (by intro h; exact h4 (by nlinarith [h]))]
    · norm_num

/-- Witness for C5 at `c = (6,-15,10), M = 1, T = 2, R = 2, step = 5,
D = 1`: the phase hypothesis holds and the accumulated displacement
`1 + 2*(5-1) = 9` reaches `M = 1`, so `ease_off` becomes `5`. -/
theorem c5_ease_off_condition_witness :
    ¬((5 : ℚ) < ((2 : ℕ) : ℚ) / 2) ∧
    (calc_displacement_scale (6, -15, 10) 1 2 2 5 1 0).2 = 5 := by
  have hp : ¬((5 : ℚ) < ((2 : ℕ) : ℚ) / 2) := by norm_num
  refine ⟨hp, ?_⟩
  have h := (c5_ease_off_condition (6, -15, 10) 1 2 2 5 1 hp).1
  rw [if_neg (by push_cast; norm_num)] at h
  exact h

/-! ## Claim C6: ease_off transitions at most once -/

/-- C6: the `ease_off` flag is returned unchanged whenever it is nonzero;
from `0` it becomes either `0` or the current step; consequently, along any
iterated sequence of calls threading the returned `ease_off` onward, once
nonzero it keeps that exact value forever (deceleration is never left and
the flag is never reset). -/
theorem c6_ease_off_monotone (c : ℚ × ℚ × ℚ) (M : ℚ) (T : ℕ) (R : ℚ)
    (D : ℚ) :
    (∀ st e, e ≠ 0 → (calc_displacement_scale c M T R st D e).2 = e) ∧
    (∀ st, (calc_displacement_scale c M T R st D 0).2 = 0 ∨
      (calc_displacement_scale c M T R st D 0).2 = st) ∧
    (∀ n e n' e', Reach c M T R D n e → Reach c M T R D n' e' →
      n ≤ n' → e ≠ 0 → e' = e) := by
  refine ⟨?_, ?_, ?_⟩
  · intro st e he
    exact cds_snd_ne c M T R st D e he
  · intro st
    rcases cds_snd c M T R st D 0 with h | ⟨h, _, _⟩
    · left; exact h
    · right; exact h
  · intro n e n' e' h h' hle hne
    exact reach_mono c M T R D n' e' h' n e h hle hne

/-- Witness for C6: a nonzero `ease_off = 7` is returned unchanged by a
concrete call. -/
theorem c6_ease_off_monotone_witness :
    (7 : ℕ) ≠ 0 ∧ (calc_displacement_scale (6, -15, 10) 1 2 2 5 1 7).2 = 7 :=
  ⟨by norm_num, (c6_ease_off_monotone (6, -15, 10) 1 2 2 1).1 5 7 (by norm_num)⟩

/-! ## Claim C8: read_array on absent file / absent dataset -/

/-- C8: a missing file is indeed handled (the outer `except IOError`
returns `None` without raising) — but a missing dataset in an existing file
raises instead of signalling absence: with h5py's `KeyError` the inner
`except IOError` does not match and the `KeyError` propagates; had the
lookup raised `IOError`, the handler would print and fall through to
`return array` with the local `array` never assigned, raising `NameError`.
Evaluated at the failing input: file `"out.h5"` exists and has no dataset
`"damage"`. -/
theorem c8_read_array_missing_dataset_raises :
    (∀ b d, read_array b (fun _ => none) "out.h5" d = ReadResult.ok none) ∧
    (∀ b, read_array b
        (fun p => if p = "out.h5" then some (fun _ => none) else none)
        "out.h5" "damage" =
      ReadResult.raised (if b then PyErr.nameError else PyErr.keyError)) := by
  constructor
  · intro b d
    rfl
  · intro b
    cases b <;> simp [read_array]

/-! ## Claim C9: symmetry of the initial-crack predicate -/

/-- C9: `is_crack` is symmetric in its two particle coordinates, and the
slope computation's denominator `p2[0] - p1[0]` is strictly positive
whenever the straddle guard that protects it holds. -/
theorem c9_is_crack_symmetric :
    (∀ x y : ℚ × ℚ, is_crack x y = is_crack y x) ∧
    (∀ x y : ℚ × ℚ, (crack_p1 x y).1 < 1 / 2 + 1 / 1000000 →
      1 / 2 + 1 / 1000000 < (crack_p2 x y).1 →
      0 < (crack_p2 x y).1 - (crack_p1 x y).1) := by
  constructor
  · intro x y
    rcases lt_trichotomy x.1 y.1 with h | h | h
    · have e1 : crack_p1 x y = x := if_neg (not_lt.mpr h.le)
      have e2 : crack_p2 x y = y := if_neg (not_lt.mpr h.le)
      have e3 : crack_p1 y x = x := if_pos h
      have e4 : crack_p2 y x = y := if_pos h
      simp only [is_crack, e1, e2, e3, e4]
    · have e1 : crack_p1 x y = x := if_neg (not_lt.mpr h.le)
      have e2 : crack_p2 x y = y := if_neg (not_lt.mpr h.le)
      have e3 : crack_p1 y x = y := if_neg (not_lt.mpr h.ge)
      have e4 : crack_p2 y x = x := if_neg (not_lt.mpr h.ge)
      simp only [is_crack, e1, e2, e3, e4]
      rw [if_neg, if_neg] <;>
        · rintro ⟨h1, h2⟩
          linarith [h.le, h.ge]
    · have e1 : crack_p1 x y = y := if_pos h
      have e2 : crack_p2 x y = x := if_pos h
      have e3 : crack_p1 y x = y := if_neg (not_lt.mpr h.le)
      have e4 : crack_p2 y x = x := if_neg (not_lt.mpr h.le)
      simp only [is_crack, e1, e2, e3, e4]
  · intro x y h1 h2
    linarith

/-- Witness for C9's guard clause at `x = (0,0), y = (1,1)`: the pair
straddles the line and the denominator is positive. -/
theorem c9_is_crack_symmetric_witness :
    (crack_p1 ((0 : ℚ), (0 : ℚ)) (1, 1)).1 < 1 / 2 + 1 / 1000000 ∧
    (1 / 2 + 1 / 1000000 : ℚ) < (crack_p2 ((0 : ℚ), (0 : ℚ)) (1, 1)).1 ∧
    0 < (crack_p2 ((0 : ℚ), (0 : ℚ)) (1, 1)).1
      - (crack_p1 ((0 : ℚ), (0 : ℚ)) (1, 1)).1 := by
  have ha : (crack_p1 ((0 : ℚ), (0 : ℚ)) (1, 1)).1 < 1 / 2 + 1 / 1000000 := by
    norm_num [crack_p1]
  have hb : (1 / 2 + 1 / 1000000 : ℚ) < (crack_p2 ((0 : ℚ), (0 : ℚ)) (1, 1)).1 := by
    norm_num [crack_p2]
  exact ⟨ha, hb, c9_is_crack_symmetric.2 ((0 : ℚ), (0 : ℚ)) (1, 1) ha hb⟩

/-! ## Claim C10: boundary_function frame and effect -/

/-- C10: `boundary_function` modifies only the rows indexed by `lhs` and
`rhs`: any other particle's row is returned unchanged; an `lhs` particle
(not also in `rhs`) gets components 1 and 2 zeroed and component 0 set to
`-0.5*step*load_rate`; an `rhs` particle gets `+0.5*step*load_rate` — equal
magnitude, opposite sign (a particle in both sets ends with the `rhs`
value, as the `rhs` assignment runs last; in the example the two sets are
disjoint). -/
theorem c10_boundary_function_rows (lhs rhs : List ℕ) (u : ℕ → Fin 3 → ℚ)
    (step : ℕ) (i : ℕ) :
    (i ∉ lhs → i ∉ rhs → ∀ j, boundary_function lhs rhs u step i j = u i j) ∧
    (i ∈ lhs → i ∉ rhs →
      boundary_function lhs rhs u step i 0 =
        -(1 / 2 * (step : ℚ) * (5 / 1000000)) ∧
      boundary_function lhs rhs u step i 1 = 0 ∧
      boundary_function lhs rhs u step i 2 = 0) ∧
    (i ∈ rhs →
      boundary_function lhs rhs u step i 0 =
        1 / 2 * (step : ℚ) * (5 / 1000000) ∧
      boundary_function lhs rhs u step i 1 = 0 ∧
      boundary_function lhs rhs u step i 2 = 0) := by
  refine ⟨?_, ?_, ?_⟩
  · intro hL hR j
    simp [boundary_function, hL, hR]
  · intro hL hR
    refine ⟨?_, ?_, ?_⟩ <;> simp [boundary_function, hL, hR]
  · intro hR
    refine ⟨?_, ?_, ?_⟩ <;> simp [boundary_function, hR]

/-- Witness for C10 at `lhs = [0], rhs = [1], step = 4`: the left particle's
first component is set to the negative extension. -/
theorem c10_boundary_function_rows_witness :
    (0 : ℕ) ∈ [0] ∧ (0 : ℕ) ∉ [1] ∧
    boundary_function [0] [1] (fun _ _ => (7 : ℚ)) 4 0 0 =
      -(1 / 2 * ((4 : ℕ) : ℚ) * (5 / 1000000)) := by
  refine ⟨by simp, by simp, ?_⟩
  exact ((c10_boundary_function_rows [0] [1] (fun _ _ => (7 : ℚ)) 4 0).2.1
    (by simp) (by simp)).1

/-! ## Claim C1: minimality and coefficient consistency of calc_build_time -/

/-- C1 counterexample: at `D = 1, Rmax = 2, steps = 100` the call returns
`T = 2` with coefficients `(6, -15, 10)`, yet `T = 1` already has midpoint
gradient `15/8 ≤ 2` (so the returned `T` is not the minimal feasible one),
and the system's solution at the returned `T = 2` is
`(3/16, -15/16, 5/4)`, not the returned `(6, -15, 10)`: the coefficients
belong to `T - 1`. -/
theorem c1_build_time_counterexample :
    calc_build_time 1 2 100 = BuildResult.ok 2 (6, -15, 10) ∧
    calc_midpoint_gradient 1 1 = some (15 / 8, (6, -15, 10)) ∧
    (15 / 8 : ℚ) ≤ 2 ∧ (1 : ℕ) < 2 ∧
    calc_midpoint_gradient 2 1 = some (15 / 16, (3 / 16, -15 / 16, 5 / 4)) ∧
    ((6 : ℚ), (-15 : ℚ), (10 : ℚ)) ≠
      ((3 / 16 : ℚ), (-15 / 16 : ℚ), (5 / 4 : ℚ)) := by
  refine ⟨cbt_eval_1_2_100, ?_, by norm_num, by norm_num, ?_, ?_⟩
  · rw [calc_midpoint_gradient_pos 1 (by norm_num) 1]
    unfold mg_at coeffs_at
    norm_num
  · rw [calc_midpoint_gradient_pos 2 (by norm_num) 1]
    unfold mg_at coeffs_at
    norm_num
  · intro h
    rw [Prod.ext_iff] at h
    exact absurd h.1 (by norm_num)

/-- C1 amended: when `calc_build_time(D, Rmax, steps)` returns
`(T, (a,b,c))`, the returned `T` is one MORE than the minimal positive
build time: `T - 1` is the least `T' ≥ 1` whose 3x3-system solution has
midpoint gradient ≤ `Rmax` (with `T' = 0` singular and skipped), and the
returned coefficients are exactly the ones solved at `T - 1` — not at the
returned `T`. -/
theorem c1_build_time_offbyone (D Rmax : ℚ) (steps T : ℕ)
    (abc : ℚ × ℚ × ℚ) (hD : 0 < D) (hR : 0 < Rmax)
    (h : calc_build_time D Rmax steps = BuildResult.ok T abc) :
    2 ≤ T ∧ T ≤ steps ∧
    calc_midpoint_gradient 0 D = none ∧
    (∃ g, calc_midpoint_gradient (T - 1) D = some (g, abc) ∧ g ≤ Rmax) ∧
    (∀ k g abc', 1 ≤ k → k < T - 1 →
      calc_midpoint_gradient k D = some (g, abc') → Rmax < g) := by
  rw [calc_build_time_spec D Rmax hD hR steps] at h
  by_cases hs : min_build_time D Rmax + 1 ≤ steps
  · rw [if_pos hs] at h
    have hm1 := min_build_time_pos D Rmax hD hR
    simp only [BuildResult.ok.injEq] at h
    obtain ⟨h1, h2⟩ := h
    refine ⟨by omega, by omega, calc_midpoint_gradient_zero D, ?_, ?_⟩
    · refine ⟨mg_at (min_build_time D Rmax) D, ?_, mg_at_min_le D Rmax hD hR⟩
      have hT1 : T - 1 = min_build_time D Rmax := by omega
      rw [hT1, calc_midpoint_gradient_pos _ (by omega) D, h2]
    · intro k g abc' hk1 hk2 hmg
      rw [calc_midpoint_gradient_pos k (by omega) D] at hmg
      simp only [Option.some.injEq, Prod.mk.injEq] at hmg
      obtain ⟨hg, _⟩ := hmg
      rw [← hg]
      exact mg_at_lt_min D Rmax hD hR k hk1 (by omega)
  · rw [if_neg hs] at h
    exact absurd h (by simp)

/-- Witness for the amended C1 at `D = 1, Rmax = 2, steps = 100`. -/
theorem c1_build_time_offbyone_witness :
    (0 : ℚ) < 1 ∧ (0 : ℚ) < 2 ∧
    calc_build_time 1 2 100 = BuildResult.ok 2 (6, -15, 10) ∧
    (∃ g, calc_midpoint_gradient (2 - 1) 1 = some (g, (6, -15, 10)) ∧
      g ≤ 2) :=
  ⟨by norm_num, by norm_num, cbt_eval_1_2_100,
    (c1_build_time_offbyone 1 2 100 2 (6, -15, 10) (by norm_num) (by norm_num)
      cbt_eval_1_2_100).2.2.2.1⟩

/-! ## Claim C2: the budget-exceeded error condition -/

/-- C2 counterexample: at `D = 1, Rmax = 2` the minimal feasible build time
is `1` (its midpoint gradient `15/8` is ≤ `2`), and the budget `steps = 1`
is NOT below it, yet the call raises: because of the trailing increment the
code raises whenever `steps ≤ minimal T`, not only when the required build
time exceeds `steps`. -/
theorem c2_budget_counterexample :
    calc_build_time 1 2 1 = BuildResult.error ∧
    min_build_time 1 2 = 1 ∧ min_build_time 1 2 ≤ 1 ∧
    calc_midpoint_gradient 1 1 = some (15 / 8, (6, -15, 10)) ∧
    (15 / 8 : ℚ) ≤ 2 := by
  refine ⟨cbt_eval_1_2_1, min_build_time_1_2, ?_, ?_, by norm_num⟩
  · rw [min_build_time_1_2]
  · rw [calc_midpoint_gradient_pos 1 (by norm_num) 1]
    unfold mg_at coeffs_at
    norm_num

/-- C2 amended: the call raises exactly when the step budget is strictly
below the minimal feasible build time PLUS ONE (the value the call would
return); equivalently it raises for `steps ≤ minimal T`, so at
`steps = minimal T` it raises even though a feasible ramp exists within
budget.  The minimality of `min_build_time` is witnessed through
`calc_midpoint_gradient`. -/
theorem c2_error_iff_budget (D Rmax : ℚ) (steps : ℕ) (hD : 0 < D)
    (hR : 0 < Rmax) :
    (calc_build_time D Rmax steps = BuildResult.error ↔
      steps < min_build_time D Rmax + 1) ∧
    (∃ g abc, calc_midpoint_gradient (min_build_time D Rmax) D =
      some (g, abc) ∧ g ≤ Rmax) ∧
    (∀ k g abc, 1 ≤ k → k < min_build_time D Rmax →
      calc_midpoint_gradient k D = some (g, abc) → Rmax < g) := by
  have hm1 := min_build_time_pos D Rmax hD hR
  refine ⟨?_, ?_, ?_⟩
  · rw [calc_build_time_spec D Rmax hD hR steps]
    by_cases hs : min_build_time D Rmax + 1 ≤ steps
    · rw [if_pos hs]
      constructor
      · intro h
        exact absurd h (by simp)
      · intro h
        exact absurd h (by omega)
    · rw [if_neg hs]
      constructor
      · intro _
        omega
      · intro _
        rfl
  · exact ⟨_, _, calc_midpoint_gradient_pos _ (by omega) D,
      mg_at_min_le D Rmax hD hR⟩
  · intro k g abc hk1 hk2 hmg
    rw [calc_midpoint_gradient_pos k (by omega) D] at hmg
    simp only [Option.some.injEq, Prod.mk.injEq] at hmg
    obtain ⟨hg, _⟩ := hmg
    rw [← hg]
    exact mg_at_lt_min D Rmax hD hR k hk1 hk2

/-- Witness for the amended C2 at `D = 1, Rmax = 2, steps = 1`. -/
theorem c2_error_iff_budget_witness :
    (0 : ℚ) < 1 ∧ (0 : ℚ) < 2 ∧
    (calc_build_time 1 2 1 = BuildResult.error ↔
      1 < min_build_time 1 2 + 1) :=
  ⟨by norm_num, by norm_num, (c2_error_iff_budget 1 2 1 (by norm_num)
    (by norm_num)).1⟩

/-! ## Quantitative bounds at the phase boundaries -/

lemma quintic_rate_half (D s : ℚ) (hs : 0 < s) :
    quintic_rate D s (s / 2) = 15 * D / (8 * s) := by
  unfold quintic_rate
  field_simp
  ring

lemma accel_last_gap (D Rmax s x : ℚ) (hs : 5 ≤ s) (hD : 0 < D)
    (hR : 0 < Rmax) (hlow : 8 * Rmax * (s - 1) < 15 * D)
    (hx : 2 * x = s ∨ 2 * x = s - 1) :
    Rmax - quintic_rate D s x ≤ 3 * Rmax / s := by
  have hs0 : (0 : ℚ) < s := by linarith
  have hB : (0 : ℚ) ≤ Rmax / s := by positivity
  rcases hx with hx | hx
  · have hxe : x = s / 2 := by linarith
    rw [hxe, quintic_rate_half D s hs0]
    have h1 : Rmax * (s - 1) / s < 15 * D / (8 * s) := by
      rw [div_lt_div_iff (by positivity) (by positivity)]
      nlinarith
    have h2 : Rmax - Rmax * (s - 1) / s = Rmax / s := by
      field_simp
      ring
    have h3 : 3 * Rmax / s = 3 * (Rmax / s) := by ring
    linarith
  · have hxe : x = (s - 1) / 2 := by linarith
    have hqr : quintic_rate D s ((s - 1) / 2) =
        15 * D * (s ^ 2 - 1) ^ 2 / (8 * s ^ 5) := by
      unfold quintic_rate
      field_simp
      ring
    rw [hxe, hqr]
    have hsq : (0 : ℚ) ≤ (s ^ 2 - 1) ^ 2 * s ^ 5 :=
      mul_nonneg (sq_nonneg _) (by positivity)
    have key : Rmax * (s - 1) * (s ^ 2 - 1) ^ 2 / s ^ 5 ≤
        15 * D * (s ^ 2 - 1) ^ 2 / (8 * s ^ 5) := by
      rw [div_le_div_iff (by positivity) (by positivity)]
      nlinarith [mul_le_mul_of_nonneg_right hlow.le hsq]
    have hpoly : Rmax * s ^ 5 ≤ 3 * Rmax * s ^ 4 + Rmax * (s - 1) * (s ^ 2 - 1) ^ 2 := by
      have hu : (0 : ℚ) ≤ s - 5 := by linarith
      nlinarith [mul_nonneg hR.le (mul_nonneg hu (pow_nonneg hs0.le 3)),
        mul_nonneg hR.le (pow_nonneg hs0.le 4),
        mul_nonneg hR.le (pow_nonneg hs0.le 2),
        mul_nonneg hR.le (pow_nonneg hs0.le 3),
        mul_nonneg hR.le hs0.le]
    have h5 : (0 : ℚ) < s ^ 5 := by positivity
    have h2 : Rmax - 3 * Rmax / s ≤ Rmax * (s - 1) * (s ^ 2 - 1) ^ 2 / s ^ 5 := by
      rw [sub_le_iff_le_add]
      have e1 : Rmax * (s - 1) * (s ^ 2 - 1) ^ 2 / s ^ 5 + 3 * Rmax / s =
          (3 * Rmax * s ^ 4 + Rmax * (s - 1) * (s ^ 2 - 1) ^ 2) / s ^ 5 := by
        field_simp
        ring
      rw [e1, le_div_iff h5]
      linarith
    linarith

lemma decel_first_gap (D Rmax s : ℚ) (hs : 5 ≤ s) (hD : 0 < D)
    (hR : 0 < Rmax) (hlow : 8 * Rmax * (s - 1) < 15 * D) :
    Rmax - quintic_rate D s ((s + 3) / 2) ≤ 19 * Rmax / s := by
  have hs0 : (0 : ℚ) < s := by linarith
  have hqr : quintic_rate D s ((s + 3) / 2) =
      15 * D * (s ^ 2 - 9) ^ 2 / (8 * s ^ 5) := by
    unfold quintic_rate
    field_simp
    ring
  rw [hqr]
  have hsq : (0 : ℚ) ≤ (s ^ 2 - 9) ^ 2 * s ^ 5 :=
    mul_nonneg (sq_nonneg _) (by positivity)
  have key : Rmax * (s - 1) * (s ^ 2 - 9) ^ 2 / s ^ 5 ≤
      15 * D * (s ^ 2 - 9) ^ 2 / (8 * s ^ 5) := by
    rw [div_le_div_iff (by positivity) (by positivity)]
    nlinarith [mul_le_mul_of_nonneg_right hlow.le hsq]
  have hpoly : Rmax * s ^ 5 ≤ 19 * Rmax * s ^ 4 + Rmax * (s - 1) * (s ^ 2 - 9) ^ 2 := by
    have hu : (0 : ℚ) ≤ s - 5 := by linarith
    nlinarith [mul_nonneg hR.le (mul_nonneg hu (pow_nonneg hs0.le 3)),
      mul_nonneg hR.le (pow_nonneg hs0.le 4),
      mul_nonneg hR.le (pow_nonneg hs0.le 3),
      mul_nonneg hR.le (pow_nonneg hs0.le 2),
      mul_nonneg hR.le hs0.le, mul_nonneg hR.le hu]
  have h5 : (0 : ℚ) < s ^ 5 := by positivity
  have h2 : Rmax - 19 * Rmax / s ≤ Rmax * (s - 1) * (s ^ 2 - 9) ^ 2 / s ^ 5 := by
    rw [sub_le_iff_le_add]
    have e1 : Rmax * (s - 1) * (s ^ 2 - 9) ^ 2 / s ^ 5 + 19 * Rmax / s =
        (19 * Rmax * s ^ 4 + Rmax * (s - 1) * (s ^ 2 - 9) ^ 2) / s ^ 5 := by
      field_simp
      ring
    rw [e1, le_div_iff h5]
    linarith
  linarith

lemma tail_bound_small (D Rmax s : ℚ) (hs : 5 ≤ s) (hD : 0 < D)
    (hR : 0 < Rmax) (hmid : 15 * D / (8 * s) ≤ Rmax) :
    30 * D * (s + 1) ^ 2 / s ^ 5 ≤ 24 * Rmax / s ^ 2 := by
  have hs0 : (0 : ℚ) < s := by linarith
  have h1 : 15 * D ≤ 8 * s * Rmax := by
    rw [div_le_iff₀ (by positivity)] at hmid
    linarith
  have h2 : 2 * (s + 1) ^ 2 ≤ 3 * s ^ 2 := by nlinarith
  rw [div_le_div_iff (by positivity) (by positivity)]
  nlinarith [mul_le_mul_of_nonneg_right h1
      (by positivity : (0 : ℚ) ≤ 2 * (s + 1) ^ 2 * s ^ 2),
    mul_le_mul_of_nonneg_right h2
      (by positivity : (0 : ℚ) ≤ 8 * Rmax * s ^ 3)]

/-! ## Claim C3: the rate stays in [0, Rmax] -/

/-- C3 counterexample: with the pair produced by
`calc_build_time(1, 2, 100)` — build time `2`, coefficients `(6, -15, 10)`
solved at `T = 1` — and target `max_displacement = 1`, iterating the
controller from `ease_off = 0` reaches step `2` with `ease_off = 1`, where
the deceleration branch evaluates the quintic derivative at `t = 2`
(beyond the solve time `1`) and returns rate `120`, far above `Rmax = 2`. -/
theorem c3_rate_bound_counterexample :
    calc_build_time 1 2 100 = BuildResult.ok 2 (6, -15, 10) ∧
    Reach (6, -15, 10) 1 2 2 1 2 1 ∧
    (calc_displacement_scale (6, -15, 10) 1 2 2 2 1 1).1 = 120 ∧
    ¬((calc_displacement_scale (6, -15, 10) 1 2 2 2 1 1).1 ≤ 2) := by
  have h0 : (calc_displacement_scale (6, -15, 10) 1 2 2 0 1 0).2 = 0 := by
    norm_num [calc_displacement_scale]
  have h1 : (calc_displacement_scale (6, -15, 10) 1 2 2 1 1 0).2 = 1 := by
    norm_num [calc_displacement_scale]
  have hrate : (calc_displacement_scale (6, -15, 10) 1 2 2 2 1 1).1 = 120 := by
    norm_num [calc_displacement_scale]
  refine ⟨cbt_eval_1_2_100, ?_, hrate, by rw [hrate]; norm_num⟩
  have rz : Reach (6, -15, 10) 1 2 2 1 0 0 := Reach.zero
  have r1 := Reach.succ 0 0 rz
  rw [h0] at r1
  have r2 := Reach.succ 1 0 r1
  rw [h1] at r2
  exact r2

/-- C3 amended: for a `(build_time, coefficients)` pair produced by
`calc_build_time` within budget, the rate returned at every reachable
`(step, ease_off)` state lies in `[0, Rmax]` PROVIDED the returned build
time is at least `6` (equivalently the solve time `T - 1` is at least `5`);
for smaller build times the deceleration phase can evaluate the quintic
past its solve time `T - 1` up to `T` and exceed `Rmax`, as the
counterexample shows. -/
theorem c3_rate_in_range (D Rmax M : ℚ) (steps T : ℕ) (abc : ℚ × ℚ × ℚ)
    (hD : 0 < D) (hR : 0 < Rmax)
    (h : calc_build_time D Rmax steps = BuildResult.ok T abc) (hT : 6 ≤ T) :
    ∀ n e, Reach abc M T Rmax D n e →
      0 ≤ (calc_displacement_scale abc M T Rmax n D e).1 ∧
      (calc_displacement_scale abc M T Rmax n D e).1 ≤ Rmax := by
  rw [calc_build_time_spec D Rmax hD hR steps] at h
  by_cases hs : min_build_time D Rmax + 1 ≤ steps
  case neg =>
    rw [if_neg hs] at h
    exact absurd h (by simp)
  rw [if_pos hs] at h
  simp only [BuildResult.ok.injEq] at h
  obtain ⟨hT1, habc⟩ := h
  set m := min_build_time D Rmax with hm
  have hm5 : 5 ≤ m := by omega
  have hsq : (5 : ℚ) ≤ (m : ℚ) := by exact_mod_cast hm5
  have hs0 : (0 : ℚ) < (m : ℚ) := by linarith
  have hmid : 15 * D / (8 * (m : ℚ)) ≤ Rmax := mg_at_min_le D Rmax hD hR
  have hTq : ((T : ℕ) : ℚ) = (m : ℚ) + 1 := by
    rw [← hT1]
    push_cast
    ring
  intro n e hreach
  by_cases hacc : ((n : ℚ)) < (T : ℚ) / 2
  · -- acceleration phase: t = n ∈ [0, m]
    rw [cds_accel abc M T Rmax n D e hacc, ← habc]
    have h2n : 2 * n < T := by
      have : (2 * (n : ℚ)) < (T : ℚ) := by linarith
      exact_mod_cast this
    have hnm : ((n : ℚ)) ≤ (m : ℚ) := by
      have : 2 * n ≤ m := by omega
      have h2 : ((2 * n : ℕ) : ℚ) ≤ (m : ℚ) := by exact_mod_cast this
      push_cast at h2
      linarith
    simp only
    rw [coeffs_rate_eq D m (by omega) ((n : ℚ))]
    constructor
    · exact quintic_rate_nonneg D (m : ℚ) ((n : ℚ)) hs0 hD.le
    · calc quintic_rate D (m : ℚ) ((n : ℚ))
          ≤ 15 * D / (8 * (m : ℚ)) :=
            quintic_rate_le_mid D (m : ℚ) ((n : ℚ)) hs0 hD.le
              (Nat.cast_nonneg n) hnm
        _ ≤ Rmax := hmid
  · by_cases he : e ≠ 0
    · -- deceleration phase
      rcases reach_ease abc M T Rmax D n e hreach with he0 | ⟨_, helt, _⟩
      · exact absurd he0 he
      by_cases hclamp : (T : ℚ) < (n : ℚ) - (e : ℚ) + (T : ℚ) / 2
      · rw [cds_decel_clamp abc M T Rmax n D e hacc he hclamp]
        exact ⟨le_refl 0, hR.le⟩
      · rw [cds_decel_run abc M T Rmax n D e hacc he hclamp, ← habc]
        simp only
        rw [coeffs_rate_eq D m (by omega) ((n : ℚ) - (e : ℚ) + (T : ℚ) / 2)]
        have htT : (n : ℚ) - (e : ℚ) + (T : ℚ) / 2 ≤ (m : ℚ) + 1 := by
          rw [← hTq]
          exact not_lt.mp hclamp
        constructor
        · exact quintic_rate_nonneg D (m : ℚ) _ hs0 hD.le
        · rcases le_or_lt ((n : ℚ) - (e : ℚ) + (T : ℚ) / 2) (m : ℚ) with hle | hgt
          · have ht0 : (0 : ℚ) ≤ (n : ℚ) - (e : ℚ) + (T : ℚ) / 2 := by
              have hen : (e : ℚ) + 1 ≤ (n : ℚ) := by exact_mod_cast helt
              have hT0 : (0 : ℚ) ≤ (T : ℚ) / 2 := by positivity
              linarith
            calc quintic_rate D (m : ℚ) ((n : ℚ) - (e : ℚ) + (T : ℚ) / 2)
                ≤ 15 * D / (8 * (m : ℚ)) :=
                  quintic_rate_le_mid D (m : ℚ) _ hs0 hD.le ht0 hle
              _ ≤ Rmax := hmid
          · calc quintic_rate D (m : ℚ) ((n : ℚ) - (e : ℚ) + (T : ℚ) / 2)
                ≤ 30 * D * ((m : ℚ) + 1) ^ 2 / (m : ℚ) ^ 5 :=
                  quintic_rate_tail_le D (m : ℚ) _ hs0 hD.le hgt.le htT
              _ ≤ 15 * D / (8 * (m : ℚ)) := quintic_tail_le_mid D (m : ℚ) hsq hD.le
              _ ≤ Rmax := hmid
    · -- constant-velocity phase
      push_neg at he
      subst he
      by_cases h4 : ((n : ℚ) - (T : ℚ) / 2) * Rmax + D / 2 + D / 2 < M
      · rw [cds_const_keep abc M T Rmax n D hacc h4]
        simp only [one_mul]
        exact ⟨hR.le, le_refl Rmax⟩
      · rw [cds_const_ease abc M T Rmax n D hacc h4]
        simp only [one_mul]
        exact ⟨hR.le, le_refl Rmax⟩

/-- Witness for the amended C3 at `D = 8/3, Rmax = 1, steps = 100`
(build time `6`), at the initial state `(step, ease_off) = (0, 0)`. -/
theorem c3_rate_in_range_witness :
    (0 : ℚ) < 8 / 3 ∧ (0 : ℚ) < 1 ∧
    calc_build_time (8 / 3) 1 100 =
      BuildResult.ok 6 (16 / 3125, -8 / 125, 16 / 75) ∧
    (6 : ℕ) ≤ 6 ∧
    (0 ≤ (calc_displacement_scale (16 / 3125, -8 / 125, 16 / 75)
        1 6 1 0 (8 / 3) 0).1 ∧
      (calc_displacement_scale (16 / 3125, -8 / 125, 16 / 75)
        1 6 1 0 (8 / 3) 0).1 ≤ 1) :=
  ⟨by norm_num, by norm_num, cbt_eval_83_1_100, le_refl 6,
    c3_rate_in_range (8 / 3) 1 1 100 6 (16 / 3125, -8 / 125, 16 / 75)
      (by norm_num) (by norm_num) cbt_eval_83_1_100 (le_refl 6) 0 0 Reach.zero⟩

/-! ## Claim C7: continuity at the phase boundaries -/

lemma min_build_time_1_100 : min_build_time 1 100 = 1 := by
  unfold min_build_time
  have h : ⌈15 * (1 : ℚ) / (8 * 100)⌉ = 1 := by
    rw [Int.ceil_eq_iff] <;> norm_num
  rw [h]
  rfl

lemma cbt_eval_1_100_100 :
    calc_build_time 1 100 100 = BuildResult.ok 2 (6, -15, 10) := by
  rw [calc_build_time_spec 1 100 (by norm_num) (by norm_num) 100,
    min_build_time_1_100]
  rw [if_pos (by norm_num)]
  unfold coeffs_at
  norm_num

/-- C7 counterexample: with the pair produced by
`calc_build_time(1, 100, 100)` — build time `2`, quintic solved at `1` —
step `0` is the last acceleration step (`0 < 2/2` and `¬(1 < 2/2)`), yet
the rate there is `0` while the constant-phase rate at step `1` is
`Rmax = 100`: the jump at the acceleration→constant boundary equals the
whole of `Rmax`, not a small tolerance. -/
theorem c7_continuity_counterexample :
    calc_build_time 1 100 100 = BuildResult.ok 2 (6, -15, 10) ∧
    ((0 : ℚ) < ((2 : ℕ) : ℚ) / 2 ∧ ¬((1 : ℚ) < ((2 : ℕ) : ℚ) / 2)) ∧
    (calc_displacement_scale (6, -15, 10) 1 2 100 0 1 0).1 = 0 ∧
    (calc_displacement_scale (6, -15, 10) 1 2 100 1 1 0).1 = 100 ∧
    (calc_displacement_scale (6, -15, 10) 1 2 100 1 1 0).1 -
      (calc_displacement_scale (6, -15, 10) 1 2 100 0 1 0).1 = 100 := by
  have h0 : (calc_displacement_scale (6, -15, 10) 1 2 100 0 1 0).1 = 0 := by
    norm_num [calc_displacement_scale]
  have h1 : (calc_displacement_scale (6, -15, 10) 1 2 100 1 1 0).1 = 100 := by
    norm_num [calc_displacement_scale]
  exact ⟨cbt_eval_1_100_100, ⟨by norm_num, by norm_num⟩, h0, h1,
    by rw [h0, h1]; norm_num⟩

/-- C7 amended: for a pair produced by `calc_build_time` within budget with
build time `T ≥ 6`, the rate is continuous at the phase boundaries up to
explicit tolerances that vanish (relative to `Rmax`) as `T` grows:
(a) at the last acceleration step (the largest `n < T/2`) the rate is
within `3*Rmax/(T-1)` below `Rmax`; (b) on the first step after `ease_off`
is recorded the deceleration rate is within `19*Rmax/(T-1)` below `Rmax`;
(c) near the clamp — whenever the deceleration argument exceeds the solve
time `T-1` — the rate is at most `24*Rmax/(T-1)^2`, so clamping to `0`
jumps by at most that much.  For small `T` no such tolerance exists (see
the counterexample, where the boundary jump equals `Rmax`). -/
theorem c7_boundary_continuity (D Rmax M : ℚ) (steps T : ℕ)
    (abc : ℚ × ℚ × ℚ) (hD : 0 < D) (hR : 0 < Rmax)
    (h : calc_build_time D Rmax steps = BuildResult.ok T abc) (hT : 6 ≤ T) :
    (∀ n : ℕ, (n : ℚ) < (T : ℚ) / 2 → (T : ℚ) / 2 ≤ (n : ℚ) + 1 → ∀ e : ℕ,
      (calc_displacement_scale abc M T Rmax n D e).1 ≤ Rmax ∧
      Rmax - (calc_displacement_scale abc M T Rmax n D e).1 ≤
        3 * Rmax / ((T : ℚ) - 1)) ∧
    (∀ e : ℕ, ¬((e : ℚ) < (T : ℚ) / 2) →
      (calc_displacement_scale abc M T Rmax (e + 1) D e).1 ≤ Rmax ∧
      Rmax - (calc_displacement_scale abc M T Rmax (e + 1) D e).1 ≤
        19 * Rmax / ((T : ℚ) - 1)) ∧
    (∀ n e : ℕ, e ≠ 0 →
      (T : ℚ) - 1 < (n : ℚ) - (e : ℚ) + (T : ℚ) / 2 →
      (calc_displacement_scale abc M T Rmax n D e).1 ≤
        24 * Rmax / ((T : ℚ) - 1) ^ 2) := by
  rw [calc_build_time_spec D Rmax hD hR steps] at h
  by_cases hs : min_build_time D Rmax + 1 ≤ steps
  case neg =>
    rw [if_neg hs] at h
    exact absurd h (by simp)
  rw [if_pos hs] at h
  simp only [BuildResult.ok.injEq] at h
  obtain ⟨hT1, habc⟩ := h
  set m := min_build_time D Rmax with hm
  have hm5 : 5 ≤ m := by omega
  have hsq : (5 : ℚ) ≤ (m : ℚ) := by exact_mod_cast hm5
  have hs0 : (0 : ℚ) < (m : ℚ) := by linarith
  have hmid : 15 * D / (8 * (m : ℚ)) ≤ Rmax := mg_at_min_le D Rmax hD hR
  have hTq : ((T : ℕ) : ℚ) = (m : ℚ) + 1 := by
    rw [← hT1]
    push_cast
    ring
  have hT1q : (T : ℚ) - 1 = (m : ℚ) := by rw [hTq]; ring
  have hlow : 8 * Rmax * ((m : ℚ) - 1) < 15 * D := by
    have hlt := mg_at_lt_min D Rmax hD hR (m - 1) (by omega) (by omega)
    unfold mg_at at hlt
    rw [Nat.cast_sub (by omega), Nat.cast_one] at hlt
    have hpos : (0 : ℚ) < 8 * ((m : ℚ) - 1) := by linarith
    rw [lt_div_iff₀ hpos] at hlt
    linarith
  refine ⟨?_, ?_, ?_⟩
  · -- (a) end of acceleration
    intro n hn1 hn2 e
    rw [cds_accel abc M T Rmax n D e hn1, ← habc]
    simp only
    rw [coeffs_rate_eq D m (by omega) ((n : ℚ))]
    have h2nT : 2 * n < T := by
      have : (2 * (n : ℚ)) < (T : ℚ) := by linarith
      exact_mod_cast this
    have hT2n : T ≤ 2 * n + 2 := by
      have : ((T : ℕ) : ℚ) ≤ 2 * ((n : ℚ) + 1) := by linarith
      have h2 : ((T : ℕ) : ℚ) ≤ ((2 * n + 2 : ℕ) : ℚ) := by push_cast; linarith
      exact_mod_cast h2
    have hx : 2 * (n : ℚ) = (m : ℚ) ∨ 2 * (n : ℚ) = (m : ℚ) - 1 := by
      rcases (by omega : 2 * n = m ∨ 2 * n + 1 = m) with hc | hc
      · left
        exact_mod_cast congrArg (Nat.cast : ℕ → ℚ) hc
      · right
        have : ((2 * n + 1 : ℕ) : ℚ) = (m : ℚ) :=
          congrArg (Nat.cast : ℕ → ℚ) hc
        push_cast at this
        linarith
    have hnm : ((n : ℚ)) ≤ (m : ℚ) := by
      rcases hx with hc | hc <;> linarith
    constructor
    · calc quintic_rate D (m : ℚ) ((n : ℚ))
          ≤ 15 * D / (8 * (m : ℚ)) :=
            quintic_rate_le_mid D (m : ℚ) ((n : ℚ)) hs0 hD.le
              (Nat.cast_nonneg n) hnm
        _ ≤ Rmax := hmid
    · rw [hT1q]
      exact accel_last_gap D Rmax (m : ℚ) ((n : ℚ)) hsq hD hR hlow hx
  · -- (b) first deceleration step after ease_off
    intro e hge
    have he3 : 3 ≤ e := by
      have h1 : (T : ℚ) / 2 ≤ (e : ℚ) := not_lt.mp hge
      rw [hTq] at h1
      have : (3 : ℚ) ≤ (e : ℚ) := by linarith
      exact_mod_cast this
    have he : e ≠ 0 := by omega
    have hacc1 : ¬(((e + 1 : ℕ) : ℚ) < (T : ℚ) / 2) := by
      push_cast
      intro hcon
      exact hge (by linarith)
    have harg : ((e + 1 : ℕ) : ℚ) - (e : ℚ) + (T : ℚ) / 2 =
        ((m : ℚ) + 3) / 2 := by
      push_cast
      rw [hTq]
      ring
    have hnc : ¬((T : ℚ) < ((e + 1 : ℕ) : ℚ) - (e : ℚ) + (T : ℚ) / 2) := by
      rw [harg, hTq]
      intro hcon
      linarith
    rw [cds_decel_run abc M T Rmax (e + 1) D e hacc1 he hnc, ← habc]
    simp only
    rw [coeffs_rate_eq D m (by omega) _, harg]
    constructor
    · calc quintic_rate D (m : ℚ) (((m : ℚ) + 3) / 2)
          ≤ 15 * D / (8 * (m : ℚ)) :=
            quintic_rate_le_mid D (m : ℚ) _ hs0 hD.le (by linarith) (by linarith)
        _ ≤ Rmax := hmid
    · rw [hT1q]
      exact decel_first_gap D Rmax (m : ℚ) hsq hD hR hlow
  · -- (c) the clamp boundary
    intro n e hne htc
    have he1 : (1 : ℚ) ≤ (e : ℚ) := by
      exact_mod_cast (by omega : 1 ≤ e)
    have hacc : ¬((n : ℚ) < (T : ℚ) / 2) := by
      intro hcon
      linarith
    have hbound : (0 : ℚ) ≤ 24 * Rmax / ((T : ℚ) - 1) ^ 2 := by
      rw [hT1q]
      exact div_nonneg (by linarith) (by positivity)
    by_cases hclamp : (T : ℚ) < (n : ℚ) - (e : ℚ) + (T : ℚ) / 2
    · rw [cds_decel_clamp abc M T Rmax n D e hacc hne hclamp]
      exact hbound
    · rw [cds_decel_run abc M T Rmax n D e hacc hne hclamp, ← habc]
      simp only
      rw [coeffs_rate_eq D m (by omega) _]
      have hgt : (m : ℚ) < (n : ℚ) - (e : ℚ) + (T : ℚ) / 2 := by
        rw [← hT1q]
        exact htc
      have htT : (n : ℚ) - (e : ℚ) + (T : ℚ) / 2 ≤ (m : ℚ) + 1 := by
        rw [← hTq]
        exact not_lt.mp hclamp
      rw [hT1q]
      calc quintic_rate D (m : ℚ) ((n : ℚ) - (e : ℚ) + (T : ℚ) / 2)
          ≤ 30 * D * ((m : ℚ) + 1) ^ 2 / (m : ℚ) ^ 5 :=
            quintic_rate_tail_le D (m : ℚ) _ hs0 hD.le hgt.le htT
        _ ≤ 24 * Rmax / (m : ℚ) ^ 2 :=
            tail_bound_small D Rmax (m : ℚ) hsq hD hR hmid

/-- Witness for the amended C7 at `D = 8/3, Rmax = 1, steps = 100`
(build time `6`), at the last acceleration step `n = 2`. -/
theorem c7_boundary_continuity_witness :
    (0 : ℚ) < 8 / 3 ∧ (0 : ℚ) < 1 ∧
    calc_build_time (8 / 3) 1 100 =
      BuildResult.ok 6 (16 / 3125, -8 / 125, 16 / 75) ∧
    (6 : ℕ) ≤ 6 ∧ (((2 : ℕ) : ℚ) < ((6 : ℕ) : ℚ) / 2) ∧
    (((6 : ℕ) : ℚ) / 2 ≤ ((2 : ℕ) : ℚ) + 1) ∧
    ((calc_displacement_scale (16 / 3125, -8 / 125, 16 / 75)
        1 6 1 2 (8 / 3) 0).1 ≤ 1 ∧
      1 - (calc_displacement_scale (16 / 3125, -8 / 125, 16 / 75)
        1 6 1 2 (8 / 3) 0).1 ≤ 3 * 1 / (((6 : ℕ) : ℚ) - 1)) :=
  ⟨by norm_num, by norm_num, cbt_eval_83_1_100, le_refl 6, by norm_num,
    by norm_num,
    (c7_boundary_continuity (8 / 3) 1 1 100 6 (16 / 3125, -8 / 125, 16 / 75)
      (by norm_num) (by norm_num) cbt_eval_83_1_100 (le_refl 6)).1 2
      (by norm_num) (by norm_num) 0⟩
